import Mathlib

/-!
# Verification of the py-tetris spatial simulation core

A shallow embedding of `src/tetris/game.py` (with `src/tetris/terminal.py`
for the value types it relies on), together with proofs about the Field
grid-ownership index, the collision oracle, piece movement, rotation
rollback, splitting, and game-over detection.

Python-specific semantics that the source depends on are modelled
explicitly:
* list indexing `l[i]` resolves negative indices by wrapping
  (`l[-1]` is the last element) and raises `IndexError` out of range;
  fallible operations therefore return `Option`;
* `==` on a class that defines no `__eq__` (such as `Vector2` in
  terminal.py) compares object identity;
* deleting from a list while iterating over it with `enumerate` skips
  the element that slides into the deleted slot.

Machine integers are modelled as `Int` (Python integers are unbounded).
-/

set_option maxHeartbeats 1000000

namespace Tetris

/-- A grid coordinate, the `(x, y)` of a `Cell`.  The visual fields of
`Cell` (`fg`, `bg`, `c`) are opaque to all of the logic verified here and
are dropped. -/
abbrev Coord := Int × Int

/-! ## Python list indexing semantics -/

/-- Resolve a Python list index: indices in `[0, len)` are used as is,
indices in `[-len, 0)` wrap around from the end, anything else is an
`IndexError` (`none`). -/
def pyResolve (len : Nat) (i : Int) : Option Nat :=
  if 0 ≤ i ∧ i < (len : Int) then some i.toNat
  else if -(len : Int) ≤ i ∧ i < 0 then some (i + len).toNat
  else none

/-- Python `l[i]` as a read. -/
def pyGetL (l : List α) (i : Int) : Option α :=
  (pyResolve l.length i).bind l.get?

/-- Python `l[i] = v`.  `none` models the `IndexError`. -/
def pySetL (l : List α) (i : Int) (v : α) : Option (List α) :=
  (pyResolve l.length i).map (fun n => l.set n v)

theorem pyResolve_of_inbounds {len : Nat} {i : Int} (h0 : 0 ≤ i)
    (h1 : i < (len : Int)) : pyResolve len i = some i.toNat := by
  simp [pyResolve, h0, h1]

theorem pyResolve_out_of_range {len : Nat} {i : Int}
    (h : (len : Int) ≤ i ∨ i < -(len : Int)) : pyResolve len i = none := by
  rcases h with h | h
  · have h1 : ¬ (i < (len : Int)) := not_lt.mpr h
    have h2 : ¬ (i < 0) := by omega
    simp [pyResolve, h1, h2]
  · have h1 : ¬ (0 ≤ i) := by omega
    have h2 : ¬ (-(len : Int) ≤ i) := by omega
    simp [pyResolve, h1, h2]

theorem pyGetL_of_inbounds {l : List α} {i : Int} (h0 : 0 ≤ i)
    (h1 : i < (l.length : Int)) : pyGetL l i = l.get? i.toNat := by
  have hlt : i.toNat < l.length := by omega
  simp [pyGetL, pyResolve_of_inbounds h0 h1]

theorem pyGetL_out_of_range {l : List α} {i : Int}
    (h : (l.length : Int) ≤ i ∨ i < -(l.length : Int)) : pyGetL l i = none := by
  simp [pyGetL, pyResolve_out_of_range h]

theorem pyGetL_mem {l : List α} {i : Int} {a : α} (h : pyGetL l i = some a) :
    a ∈ l := by
  unfold pyGetL at h
  cases hres : pyResolve l.length i with
  | none => rw [hres] at h; simp at h
  | some n =>
    rw [hres] at h
    simp only [Option.some_bind] at h
    exact List.get?_mem h

/-! ## The Field: data model

`FieldInfo` in the source records `(x, y, obj, cell)`; the coordinates
always equal the grid position the record is stored at, and `oid` is
`id(obj)`.  The model keeps only the owner's identity per slot.  The
object store maps each object identity (a list index) to its current
state: its cell list and whether it is the `Map` (wall) object. -/

/-- One tracked game object as the Field logic sees it: its current cell
list (`obj.cells`, returned by `make_cells`) and the class facts the
Field dispatches on — whether it is an instance of `Map` (checked by
`remove_at` and `check_filled`) and whether it is an instance of
`Tetrimino`, the only class whose virtual `remove` actually deletes a
cell (the base `GameObject.remove` is a no-op, used for example by the
`Text` messages the game also registers in the Field). -/
structure Obj where
  cells : List Coord
  isMap : Bool
  isTetrimino : Bool
deriving DecidableEq, Repr

/-- The `Field` plus the object store.  `data` is the source's
`self.data` (`height` rows of `width` slots); a slot holds the owning
object's identity.  `mapWidth` is `self.map.width`, used by
`check_filled`. -/
structure FieldSt where
  width : Nat
  height : Nat
  mapWidth : Nat
  data : List (List (Option Nat))
  objs : List Obj
deriving DecidableEq, Repr

/-- Look up an object by identity. -/
def getObj (s : FieldSt) (oid : Nat) : Obj := s.objs.getD oid ⟨[], false, false⟩

/-- The slot at grid position `(x, y)` (natural coordinates, no Python
wrapping): `none` when the slot is empty or out of range. -/
def slotAt (s : FieldSt) (x y : Nat) : Option Nat :=
  ((s.data.get? y).bind (fun row => row.get? x)).join

/-- Model of `slotAt` for integer cell coordinates; negative coordinates have no
slot. -/
def slotAtI (s : FieldSt) (x y : Int) : Option Nat :=
  if 0 ≤ x ∧ 0 ≤ y then slotAt s x.toNat y.toNat else none

/-- Structural well-formedness of the grid: `height` rows of `width`
slots, as built by `Field.__init__`. -/
def WFF (s : FieldSt) : Prop :=
  s.data.length = s.height ∧ ∀ row ∈ s.data, row.length = s.width

/-! ## Field.get -/

/-- Model of `Field.get`: `try: return self.data[y][x] except IndexError: return
None`.  Both the row read and the slot read can raise; the handler turns
either into `None`.  Negative indices wrap instead of raising. -/
def Field.get (s : FieldSt) (x y : Int) : Option Nat :=
  ((pyGetL s.data y).bind (fun row => pyGetL row x)).join

/-! ## Field.check_filled -/

/-- The row scan of `Field.check_filled`: walks the row, returns `False`
at the first empty slot, otherwise accumulates whether some occupant is
not the `Map`; `filled` is never reassigned so the final result is the
accumulator. -/
def filledLoop (s : FieldSt) (has : Bool) : List (Option Nat) → Bool
  | [] => has
  | none :: _ => false
  | some oid :: rest => filledLoop s (has || !(getObj s oid).isMap) rest

/-- Model of `Field.check_filled(y=y)` (row form): reads `self.data[y]` (an
uncaught `IndexError` is `none`), truncates to `self.map.width` and runs
the scan. -/
def Field.check_filled (s : FieldSt) (y : Int) : Option Bool :=
  (pyGetL s.data y).map (fun line => filledLoop s false (line.take s.mapWidth))

/-- Model of `Field.check_filled(y=y, x=x)` (slot form): `return line[x] is None`.
The `line[x]` read is not guarded by any handler. -/
def Field.check_filled_x (s : FieldSt) (y x : Int) : Option Bool :=
  (pyGetL s.data y).bind fun line =>
    (pyGetL line x).map (fun slot => slot.isNone)

end Tetris

namespace Tetris

/-! ## Claim C7: out-of-range `Field.get` -/

/-- C7 counterexample state: a 2×1 field whose slot `(1, 0)` is owned by
object 0. -/
def C7state : FieldSt :=
  { width := 2, height := 1, mapWidth := 2
    data := [[none, some 0]]
    objs := [⟨[(1, 0)], false, true⟩] }

/-- C7 (counterexample): `x = -1` is outside `[0, width)`, yet
`Field.get` does not return the empty result: Python's negative-index
wrapping yields the slot at `(width - 1, 0)`, another slot's contents. -/
theorem C7_cex :
    ((-1 : Int) < 0 ∧ Field.get C7state (-1) 0 = some 0) := by
  constructor
  · decide
  · rfl

/-- C7 (amended): for every coordinate beyond Python's wrapping range
(`x ≥ width` or `x < -width` or `y ≥ height` or `y < -height`),
`Field.get` returns the empty result rather than a slot or a fault. -/
theorem C7_get_none_far_out_of_range (s : FieldSt) (x y : Int)
    (hwf : WFF s)
    (h : (s.width : Int) ≤ x ∨ x < -(s.width : Int) ∨
         (s.height : Int) ≤ y ∨ y < -(s.height : Int)) :
    Field.get s x y = none := by
  obtain ⟨hlen, hrow⟩ := hwf
  unfold Field.get
  rcases h with hx | hx | hy | hy
  · cases hg : pyGetL s.data y with
    | none => simp
    | some row =>
      have hrw : row.length = s.width := hrow row (pyGetL_mem hg)
      have hx' : pyGetL row x = none :=
        pyGetL_out_of_range (by left; rw [hrw]; exact hx)
      simp [hx']
  · cases hg : pyGetL s.data y with
    | none => simp
    | some row =>
      have hrw : row.length = s.width := hrow row (pyGetL_mem hg)
      have hx' : pyGetL row x = none :=
        pyGetL_out_of_range (by right; rw [hrw]; exact hx)
      simp [hx']
  · have hy' : pyGetL s.data y = none :=
      pyGetL_out_of_range (by left; rw [hlen]; exact hy)
    simp [hy']
  · have hy' : pyGetL s.data y = none :=
      pyGetL_out_of_range (by right; rw [hlen]; exact hy)
    simp [hy']

/-- C7 witness: on the concrete 2×1 field, reading at `x = 2 ≥ width`
returns the empty result. -/
theorem C7_get_none_witness : Field.get C7state 2 0 = none :=
  C7_get_none_far_out_of_range C7state 2 0
    (by constructor <;> simp [C7state, WFF]) (by left; decide)

/-! ## Claim C10: the `x` form of `check_filled` reports emptiness -/

/-- C10: when `check_filled` is called with both a row `y` and a column
`x` (in range), it returns `True` exactly when the slot at `(x, y)` is
empty — the opposite polarity of the row form. -/
theorem C10_check_filled_x_empty (s : FieldSt) (x y : Int) (hwf : WFF s)
    (hx0 : 0 ≤ x) (hx : x < (s.width : Int))
    (hy0 : 0 ≤ y) (hy : y < (s.height : Int)) :
    (Field.check_filled_x s y x = some true ↔ slotAt s x.toNat y.toNat = none) := by
  obtain ⟨hlen, hrowlen⟩ := hwf
  have hy' : y < (s.data.length : Int) := by rw [hlen]; exact hy
  have hyget : pyGetL s.data y = s.data.get? y.toNat := pyGetL_of_inbounds hy0 hy'
  cases hrow : s.data.get? y.toNat with
  | none =>
    exfalso
    have := List.get?_eq_none.mp hrow
    omega
  | some row =>
    have hrw : row.length = s.width := hrowlen row (List.get?_mem hrow)
    have hx' : x < (row.length : Int) := by rw [hrw]; exact hx
    have hxget : pyGetL row x = row.get? x.toNat := pyGetL_of_inbounds hx0 hx'
    cases hslot : row.get? x.toNat with
    | none =>
      exfalso
      have := List.get?_eq_none.mp hslot
      omega
    | some slot =>
      unfold Field.check_filled_x slotAt
      rw [hyget, hrow]
      simp only [Option.some_bind]
      rw [hxget, hslot]
      simp [Option.isNone_iff_eq_none]

/-- C10 witness: a concrete 2×1 field; the empty slot `(0, 0)` makes the
`x` form answer `True`, via the theorem applied at `x = 0`, `y = 0`. -/
theorem C10_check_filled_x_witness :
    Field.check_filled_x C7state 0 0 = some true :=
  (C10_check_filled_x_empty C7state 0 0
      (by constructor <;> simp [C7state, WFF])
      (by decide) (by decide) (by decide) (by decide)).mpr (by decide)

/-! ## Claim C8: the row form of `check_filled` -/

theorem filledLoop_eq_true (s : FieldSt) :
    ∀ (l : List (Option Nat)) (has : Bool),
      (filledLoop s has l = true ↔
        (∀ c ∈ l, c ≠ none) ∧
        (has = true ∨ ∃ oid, some oid ∈ l ∧ (getObj s oid).isMap = false)) := by
  intro l
  induction l with
  | nil => intro has; simp [filledLoop]
  | cons c rest ih =>
    intro has
    cases c with
    | none => simp [filledLoop]
    | some oid =>
      simp only [filledLoop]
      rw [ih]
      constructor
      · rintro ⟨hall, hdis⟩
        refine ⟨?_, ?_⟩
        · intro c hc
          rcases List.mem_cons.mp hc with rfl | hc
          · simp
          · exact hall c hc
        · rcases hdis with hb | ⟨oid', hmem, hoid'⟩
          · rcases Bool.or_eq_true_iff.mp hb with hb | hb
            · exact Or.inl hb
            · exact Or.inr ⟨oid, List.mem_cons_self _ _, by
                simpa using hb⟩
          · exact Or.inr ⟨oid', List.mem_cons_of_mem _ hmem, hoid'⟩
      · rintro ⟨hall, hdis⟩
        refine ⟨fun c hc => hall c (List.mem_cons_of_mem _ hc), ?_⟩
        rcases hdis with hb | ⟨oid', hmem, hoid'⟩
        · exact Or.inl (by simp [hb])
        · rcases List.mem_cons.mp hmem with heq | hmem
          · left
            have : oid' = oid := by injection heq
            subst this
            simp [hoid']
          · exact Or.inr ⟨oid', hmem, hoid'⟩

/-- C8: `check_filled(y)` answers `True` exactly when every slot of row
`y` within the map width is occupied and at least one occupant is a
non-wall (non-`Map`) object; a row occupied only by wall cells never
counts as filled. -/
theorem C8_check_filled_row (s : FieldSt) (y : Int) (line : List (Option Nat))
    (hline : pyGetL s.data y = some line) :
    (Field.check_filled s y = some true ↔
      (∀ c ∈ line.take s.mapWidth, c ≠ none) ∧
      ∃ oid, some oid ∈ line.take s.mapWidth ∧ (getObj s oid).isMap = false) := by
  unfold Field.check_filled
  rw [hline]
  simp only [Option.map_some', Option.some_inj]
  rw [filledLoop_eq_true]
  simp

/-- C8 witness state: a 2×1 field whose row 0 holds a wall cell (object
0, the `Map`) and a block cell (object 1). -/
def C8state : FieldSt :=
  { width := 2, height := 1, mapWidth := 2
    data := [[some 0, some 1]]
    objs := [⟨[(0, 0)], true, false⟩, ⟨[(1, 0)], false, true⟩] }

/-- C8 witness: the fully occupied mixed row of the concrete field is
reported filled, via the theorem applied to row 0. -/
theorem C8_check_filled_witness : Field.check_filled C8state 0 = some true :=
  (C8_check_filled_row C8state 0 [some 0, some 1] (by decide)).mpr
    ⟨by decide, 1, by decide, by decide⟩

/-! ## Game objects, the collision oracle, rotation and movement

`GameObject`s carry a cell list (`make_cells` returns `self.cells` for
`Map`, `Text` and `Tetrimino`) and a `collidable` flag, and have a
Python object identity (`a is b` is `oid` equality; distinct objects
have distinct `oid`s). -/

/-- A game object as `check_collision`, `rotate` and `Game.move` see
it. -/
structure GObj where
  oid : Nat
  collidable : Bool
  cells : List Coord
deriving DecidableEq, Repr

/-- Model of `CELLX`/`CELLY` from src/tetris/terminal.py. -/
def CELLX : Int := 2

def CELLY : Int := 1

/-- Modelled from the spec: `scale_cells` is imported from `.terminal`
in game.py but absent from the source snapshot (src/tetris/terminal.py
is an older revision that also lacks `rotate_cells`, which game.py
imports as well).  Spec §4.2: cell coordinates "MAY be scaled by a fixed
horizontal/vertical factor before comparison"; we scale by the fixed
factors `CELLX = 2`, `CELLY = 1` defined in src/tetris/terminal.py. -/
def scale_cells (cells : List Coord) : List Coord :=
  cells.map (fun c => (c.1 * CELLX, c.2 * CELLY))

/-- Model of `check_collision` (game.py): `False` for non-`GameObject` arguments
(all values of `GObj` model `GameObject`s), `False` when `a is b`,
`False` when either participant is not collidable, otherwise `True` iff
the scaled cell lists share an `(x, y)` coordinate. -/
def check_collision (a b : GObj) : Bool :=
  if a.oid = b.oid then false
  else if !a.collidable || !b.collidable then false
  else (scale_cells a.cells).any fun ac =>
    (scale_cells b.cells).any fun bc => ac.1 == bc.1 && ac.2 == bc.2

/-- C2: the collision check is a total Boolean function that returns
`False` on identical objects, `False` when either participant is
non-collidable, and otherwise answers exactly whether the scaled cell
sets share a coordinate. -/
theorem C2_check_collision_contract (a b : GObj) :
    (a.oid = b.oid → check_collision a b = false) ∧
    (a.collidable = false ∨ b.collidable = false → check_collision a b = false) ∧
    (a.oid ≠ b.oid → a.collidable = true → b.collidable = true →
      (check_collision a b = true ↔
        ∃ p, p ∈ scale_cells a.cells ∧ p ∈ scale_cells b.cells)) := by
  refine ⟨?_, ?_, ?_⟩
  · intro h
    simp [check_collision, h]
  · intro h
    unfold check_collision
    split
    · rfl
    · rcases h with h | h <;> simp [h]
  · intro hne ha hb
    simp only [check_collision, if_neg hne, ha, hb, Bool.not_true,
      Bool.or_self, Bool.false_eq_true, if_false, List.any_eq_true]
    constructor
    · rintro ⟨ac, hac, bc, hbc, heq⟩
      have h1 : ac.1 = bc.1 := by
        have := (Bool.and_eq_true _ _).mp heq
        exact_mod_cast eq_of_beq this.1
      have h2 : ac.2 = bc.2 := by
        have := (Bool.and_eq_true _ _).mp heq
        exact_mod_cast eq_of_beq this.2
      refine ⟨ac, hac, ?_⟩
      have : ac = bc := Prod.ext h1 h2
      rw [this]
      exact hbc
    · rintro ⟨p, hpa, hpb⟩
      exact ⟨p, hpa, p, hpb, by simp⟩

/-- C2 witness: two distinct collidable one-cell objects sharing a cell
collide, via the contract's third clause. -/
theorem C2_check_collision_witness :
    check_collision ⟨0, true, [(0, 0)]⟩ ⟨1, true, [(0, 0)]⟩ = true :=
  ((C2_check_collision_contract ⟨0, true, [(0, 0)]⟩ ⟨1, true, [(0, 0)]⟩).2.2
      (by decide) rfl rfl).mpr ⟨(0, 0), by decide, by decide⟩

/-! ## Claim C6: rejected rotations are rolled back exactly -/

/-- Modelled from the spec: `rotate_cells` is imported from `.terminal`
in game.py but absent from the source snapshot.  Spec §4.4: rotation
"applies a 90° rotation of all non-pivot cells around `cells[0]` using
integer transform `(x,y) -> (pivot.x - (y-pivot.y), pivot.y -
(x-pivot.x))` ... (or the inverse transform for rollback)"; the second
argument selects the rollback direction.  The spec's transform is an
involution, so the forward and inverse transforms coincide and the flag
does not change the map; the pivot `cells[0]` is a fixed point, so the
pivot of the rotated list is the original pivot. -/
def rotate_cells (cells : List Coord) (inverse : Bool) : List Coord :=
  match inverse, cells with
  | _, [] => []
  | _, pivot :: _ =>
    cells.map fun c => (pivot.1 - (c.2 - pivot.2), pivot.2 - (c.1 - pivot.1))

/-- The spec's rotation transform undoes itself, pointwise. -/
theorem rotate_cells_involutive (cells : List Coord) (i₁ i₂ : Bool) :
    rotate_cells (rotate_cells cells i₁) i₂ = cells := by
  cases cells with
  | nil => rfl
  | cons pivot rest =>
    simp only [rotate_cells, List.map_cons, sub_self, sub_zero]
    rw [List.map_map]
    have hff : ∀ c ∈ rest,
        ((fun c : Coord => (pivot.1 - (c.2 - pivot.2), pivot.2 - (c.1 - pivot.1))) ∘
          (fun c : Coord => (pivot.1 - (c.2 - pivot.2), pivot.2 - (c.1 - pivot.1)))) c
          = id c := by
      intro c _
      simp only [Function.comp_apply, id_eq]
      apply Prod.ext <;> simp
    rw [List.map_congr_left hff, List.map_id]

/-- Model of `Tetrimino.rotate`: the cell list is rotated optimistically, then
tested against every Field child (the enumeration includes the piece
itself, which the identity check of `check_collision` ignores); on the
first collision the inverse transform is applied and the method
returns. -/
def Tetrimino.rotate (self : GObj) (children : List GObj) : GObj :=
  let rotated : GObj := { self with cells := rotate_cells self.cells false }
  if children.any fun o => check_collision rotated o then
    { rotated with cells := rotate_cells rotated.cells true }
  else rotated

/-- C6: whenever the rotated cell set collides with some tracked object,
the attempt is reverted and the piece's cell list afterwards is
identical — coordinates and order — to the list before the attempt. -/
theorem C6_rotate_rollback_exact (self : GObj) (children : List GObj)
    (hcol : (children.any fun o =>
      check_collision { self with cells := rotate_cells self.cells false } o) = true) :
    Tetrimino.rotate self children = self := by
  unfold Tetrimino.rotate
  simp only [hcol, if_true]
  rw [rotate_cells_involutive]

/-- C6 witness: a domino piece whose rotation lands on a blocking
object is returned unchanged, via the rollback theorem. -/
theorem C6_rotate_rollback_witness :
    Tetrimino.rotate ⟨0, true, [(0, 0), (1, 0)]⟩ [⟨1, true, [(0, -1)]⟩]
      = ⟨0, true, [(0, 0), (1, 0)]⟩ :=
  C6_rotate_rollback_exact ⟨0, true, [(0, 0), (1, 0)]⟩ [⟨1, true, [(0, -1)]⟩]
    (by decide)

/-! ## Claim C3: game-over detection

`Game.check_game_over` reads the player's cells and compares
`origin == current`, where `origin` is the player's `pos` (a `Vector2`)
and `current` is a `Vector2` freshly constructed from `cells[0]`.
`Vector2` (src/tetris/terminal.py) defines `__add__`, `__sub__`,
`__repr__`, `__str__` — but no `__eq__`, so Python `==` falls back to
object identity.  A `PyVec` models a `Vector2` object: its coordinates
plus its identity. -/

structure PyVec where
  oid : Nat
  x : Int
  y : Int
deriving DecidableEq, Repr

/-- Python `==` on `Vector2`: identity comparison (no `__eq__`). -/
def pyVecEq (a b : PyVec) : Bool := a.oid == b.oid

/-- Model of `Game.check_game_over`, returning whether `Exit` is raised.
`freshOid` is the identity of the newly allocated `current` vector;
a fresh allocation is distinct from every live object, in particular
from `self.player.pos`. -/
def Game.check_game_over (pos : PyVec) (cells : List Coord) (freshOid : Nat) :
    Bool :=
  match cells with
  | [] => false
  | c :: _ => pyVecEq pos ⟨freshOid, c.1, c.2⟩

/-- The comparison the spec describes: the player's position coincides,
in coordinates, with its first cell (the pre-move origin check). -/
def check_game_over_coords (pos : PyVec) (cells : List Coord) : Bool :=
  match cells with
  | [] => false
  | c :: _ => pos.x == c.1 && pos.y == c.2

/-- C3 (code bug): because `current` is freshly allocated and `Vector2`
has no `__eq__`, the identity test `origin == current` is always
`False`: `check_game_over` never signals game over, for any player
state — even when the coordinates coincide exactly as the spec
describes (second conjunct: the O-piece spawn state `pos = (4, 0)`,
`cells[0] = (4, 0)`). -/
theorem C3_game_over_never_signaled :
    (∀ (pos : PyVec) (cells : List Coord) (freshOid : Nat),
      freshOid ≠ pos.oid → Game.check_game_over pos cells freshOid = false) ∧
    check_game_over_coords ⟨0, 4, 0⟩ [(4, 0), (5, 0)] = true := by
  constructor
  · intro pos cells freshOid hne
    cases cells with
    | nil => rfl
    | cons c rest =>
      simp [Game.check_game_over, pyVecEq, hne, Ne.symm hne]
  · decide

/-- C3 witness: at the concrete coincident spawn state — where the spec
says game over must be signaled — the code signals nothing. -/
theorem C3_game_over_witness :
    Game.check_game_over ⟨0, 4, 0⟩ [(4, 0), (5, 0)] 1 = false :=
  C3_game_over_never_signaled.1 ⟨0, 4, 0⟩ [(4, 0), (5, 0)] 1 (by decide)

/-! ## Claim C4: `Tetrimino.split` -/

/-- A `Tetrimino` as `split` sees it: its `pos` and its cell list. -/
structure TetriminoSt where
  pos : Coord
  cells : List Coord
deriving DecidableEq, Repr

/-- Model of `Tetrimino(x, y, bg)`: `GameObject.__init__` sets `self.cells = []`
and the constructor assigns only `pos` and `bg` — the base `Tetrimino`
constructor used by `split` populates no cells. -/
def TetriminoNew (x y : Int) : TetriminoSt := ⟨(x, y), []⟩

/-- One Manhattan-distance isolation test of `split`: cell number `n` is
isolated when every other cell of the list is at distance `> 1` (the
`cell is other` identity skip is the index skip: the cells of a piece
are distinct objects). -/
def isolatedAt (cells : List Coord) (n : Nat) (c : Coord) : Bool :=
  (cells.eraseIdx n).all fun o =>
    1 < (c.1 - o.1).natAbs + (c.2 - o.2).natAbs

/-- The scan of `split`: the first isolated cell with its index. -/
def firstIsolated (cells : List Coord) : Option (Nat × Coord) :=
  cells.enum.find? fun p => isolatedAt cells p.1 p.2

/-- Model of `Tetrimino.split`: `None` when the piece has fewer than two cells or
no isolated cell; otherwise builds `Tetrimino(cell.x, cell.y, cell.bg)`,
deletes the cell from `self.cells` and returns the new piece.  The
result pairs the returned piece with the mutated original. -/
def Tetrimino.split (self : TetriminoSt) : Option (TetriminoSt × TetriminoSt) :=
  if self.cells = [] ∨ self.cells.length < 2 then none
  else
    match firstIsolated self.cells with
    | none => none
    | some (n, c) =>
      some (TetriminoNew c.1 c.2, { self with cells := self.cells.eraseIdx n })

/-- C4 (code bug): on the spec's own example `{(0,0),(1,0),(5,5)}` the
remainder is `{(0,0),(1,0)}` as claimed, but the returned piece has an
empty cell list — `Tetrimino.__init__` never populates `cells`, so the
isolated cell `(5,5)` is dropped rather than extracted into a one-cell
piece. -/
theorem C4_split_drops_isolated_cell :
    Tetrimino.split ⟨(0, 0), [(0, 0), (1, 0), (5, 5)]⟩
      = some (⟨(5, 5), []⟩, ⟨(0, 0), [(0, 0), (1, 0)]⟩) := by
  decide

/-! ## Claim C5: unit-step decomposition of `Game.move` -/

/-- Model of `Tetrimino.move(dx, dy)`: translates every cell by the delta; no
validation. -/
def moveCells (cells : List Coord) (dx dy : Int) : List Coord :=
  cells.map fun c => (c.1 + dx, c.2 + dy)

theorem moveCells_moveCells (cs : List Coord) (a b c d : Int) :
    moveCells (moveCells cs a b) c d = moveCells cs (a + c) (b + d) := by
  unfold moveCells
  rw [List.map_map]
  apply List.map_congr_left
  intro p _
  simp only [Function.comp_apply]
  apply Prod.ext <;> simp <;> ring

/-- The unit-step decomposition built by `Game.move`: `abs(dx)` steps of
`op(dx) = ±1` in x, then `abs(dy)` steps of `op(dy)` in y (`op(v)` is
`1` when `v >= 0`, else `-1`). -/
def stepList (dx dy : Int) : List (Int × Int) :=
  List.replicate dx.natAbs ((if 0 ≤ dx then 1 else -1 : Int), (0 : Int)) ++
    List.replicate dy.natAbs ((0 : Int), (if 0 ≤ dy then 1 else -1 : Int))

/-- The step loop of `Game.move`: each unit step is applied, the moved
piece is tested against every Field child, and on the first collision
the `on_collided` callbacks fire and the step is undone by the inverse
unit move (the inner `break` only skips the remaining children; the
outer loop then continues with the next step). -/
def moveLoop (others : List GObj) : GObj → List (Int × Int) → GObj
  | self, [] => self
  | self, s :: rest =>
    let moved : GObj := { self with cells := moveCells self.cells s.1 s.2 }
    if others.any fun o => check_collision moved o then
      moveLoop others { moved with cells := moveCells moved.cells (-s.1) (-s.2) } rest
    else
      moveLoop others moved rest

/-- Model of `Game.move` restricted to the moved piece's cells.
`self.field.clear(obj)` removes the piece's own slots before the loop,
so the Field children enumerated during the steps are the `others`;
`check_game_over` never raises (claim C3), and the trailing
`field.update`/render calls do not change any cell position, so the
piece's final cell list is the loop's result. -/
def Game.move (self : GObj) (others : List GObj) (dx dy : Int) : GObj :=
  moveLoop others self (stepList dx dy)

/-- C5: a requested `dy = 3` move whose first unit step is free but
whose second unit step collides (an obstacle one free cell below the
piece) ends with net displacement exactly `dy = 1` — not `0` and not
`3`: the blocked unit steps are each rolled back and the piece rests at
the first blocking cell without tunneling. -/
theorem C5_move_stops_at_obstacle (p : GObj) (others : List GObj)
    (h1 : (others.any fun o =>
      check_collision { p with cells := moveCells p.cells 0 1 } o) = false)
    (h2 : (others.any fun o =>
      check_collision { p with cells := moveCells p.cells 0 2 } o) = true) :
    Game.move p others 0 3 = { p with cells := moveCells p.cells 0 1 } := by
  have hm12 : moveCells (moveCells p.cells 0 1) 0 1 = moveCells p.cells 0 2 := by
    rw [moveCells_moveCells]; norm_num
  have hm21 : moveCells (moveCells p.cells 0 2) 0 (-1) = moveCells p.cells 0 1 := by
    rw [moveCells_moveCells]; norm_num
  have hsteps : stepList 0 3 =
      [((0 : Int), (1 : Int)), (0, 1), (0, 1)] := rfl
  unfold Game.move
  rw [hsteps]
  simp only [moveLoop, neg_zero, hm12, hm21, h1, h2, Bool.false_eq_true,
    if_false, if_true]

/-- C5 witness: a one-cell piece at `(0, 0)` asked to move `dy = 3`
against a blocker at `(0, 2)` ends at `(0, 1)`. -/
theorem C5_move_stops_witness :
    Game.move ⟨0, true, [(0, 0)]⟩ [⟨1, true, [(0, 2)]⟩] 0 3
      = ⟨0, true, [(0, 1)]⟩ := by
  have := C5_move_stops_at_obstacle ⟨0, true, [(0, 0)]⟩ [⟨1, true, [(0, 2)]⟩]
    (by decide) (by decide)
  simpa [moveCells] using this

/-! ## Field mutation: `update`, `clear`, `remove_at`

The mutating Field operations, with Python's list-assignment semantics:
`self.data[y][x] = v` resolves both indices (negative indices wrap) and
raises `IndexError` out of range — modelled by `Option`. -/

/-- Python `self.data[y][x] = v`. -/
def dataSet (d : List (List (Option Nat))) (x y : Int) (v : Option Nat) :
    Option (List (List (Option Nat))) :=
  match pyResolve d.length y with
  | none => none
  | some ny =>
    match d.get? ny with
    | none => none
    | some row =>
      match pyResolve row.length x with
      | none => none
      | some nx => some (d.set ny (row.set nx v))

/-- Model of `slotAt` on the raw grid. -/
def slotAtD (d : List (List (Option Nat))) (x y : Nat) : Option Nat :=
  ((d.get? y).bind (fun row => row.get? x)).join

/-- Model of `Field.clear(obj)`: `self.data[cell.y][cell.x] = None` for every
current cell of the object, in list order.  (The `if not obj: return`
guard handles a `None` argument; the model only passes real objects.) -/
def Field.clear (s : FieldSt) (oid : Nat) : Option FieldSt :=
  ((getObj s oid).cells.foldlM (fun d c => dataSet d c.1 c.2 none) s.data).map
    fun d => { s with data := d }

/-- Model of `Field.update(obj)`: `self.clear(obj)` followed by writing a fresh
slot (`FieldInfo(x, y, obj, cell)`, modelled by the owner identity) for
every current cell of the object. -/
def Field.update (s : FieldSt) (oid : Nat) : Option FieldSt :=
  (Field.clear s oid).bind fun s1 =>
    ((getObj s oid).cells.foldlM (fun d c => dataSet d c.1 c.2 (some oid)) s1.data).map
      fun d => { s1 with data := d }

/-- Python deletes matching cells from `obj.cells` while iterating over
the same list with `enumerate`; after `del` at the cursor, the element
that slides into the cursor's slot is skipped.  `Tetrimino.remove` uses
`self.cells.index(cell)`, which finds the very occurrence being visited
(cells are distinct objects). -/
def pyDelMatches (p : α → Bool) : List α → List α
  | [] => []
  | c :: rest =>
    if p c then
      match rest with
      | [] => []
      | d :: rest2 => d :: pyDelMatches p rest2
    else c :: pyDelMatches p rest

/-- Model of `Field.remove_at(x, y)`: read the slot via the
bounds-forgiving `get`; empty slot is a no-op; otherwise empty the slot
and, unless the owner is the `Map`, call the owner's virtual
`remove(cell)` for each of its cells whose coordinates equal the raw
`(x, y)` argument.  Only `Tetrimino.remove` deletes the cell from
`self.cells`; the base `GameObject.remove` (inherited by `Map`, `Text`
and any other owner) is `pass`, so a non-`Tetrimino` owner keeps its
cell even though its slot is emptied. -/
def Field.remove_at (s : FieldSt) (x y : Int) : Option FieldSt :=
  match Field.get s x y with
  | none => some s
  | some oid =>
    (dataSet s.data x y none).map fun d =>
      let o := getObj s oid
      if o.isMap then { s with data := d }
      else if o.isTetrimino then
        { s with
          data := d,
          objs := s.objs.set oid
            { o with cells := pyDelMatches (fun c => c.1 == x && c.2 == y) o.cells } }
      else { s with data := d }

/-! ## The consistency invariant (claims C1, C9) -/

/-- An object is tracked when it owns at least one Field slot (this is
what the `children` enumeration yields). -/
def tracked (s : FieldSt) (oid : Nat) : Prop :=
  ∃ x y : Nat, slotAt s x y = some oid

/-- The claim's invariant, exactly: every non-empty slot's coordinate is
a coordinate of a cell currently in the recorded object's cell list, and
no tracked object's cell is missing from its slot or recorded under
another owner. -/
def ClaimConsistent (s : FieldSt) : Prop :=
  (∀ x y oid, slotAt s x y = some oid → ((x : Int), (y : Int)) ∈ (getObj s oid).cells) ∧
  (∀ oid, tracked s oid → ∀ c ∈ (getObj s oid).cells, slotAtI s c.1 c.2 = some oid)

/-- A cell coordinate within the grid bounds. -/
def InB (s : FieldSt) (c : Coord) : Prop :=
  0 ≤ c.1 ∧ c.1 < (s.width : Int) ∧ 0 ≤ c.2 ∧ c.2 < (s.height : Int)

/-- Tracked objects have in-bounds cell lists with pairwise-distinct
coordinates. -/
def TrackedOK (s : FieldSt) : Prop :=
  ∀ oid, tracked s oid →
    (∀ c ∈ (getObj s oid).cells, InB s c) ∧ (getObj s oid).cells.Nodup

/-- The full invariant carried through the operations. -/
def Consistent (s : FieldSt) : Prop :=
  WFF s ∧ ClaimConsistent s ∧ TrackedOK s

/-- Precondition of `update`/`clear`: the argument object's cells are in
bounds and none of their slots is currently owned by a different
object. -/
def PreObjOp (s : FieldSt) (oid : Nat) : Prop :=
  (∀ c ∈ (getObj s oid).cells,
    InB s c ∧ (slotAtI s c.1 c.2 = none ∨ slotAtI s c.1 c.2 = some oid)) ∧
  (getObj s oid).cells.Nodup

/-- Precondition of `remove_at`: in-bounds coordinate whose slot, if
occupied, is owned by a non-`Map` `Tetrimino` — the only owner class
whose `remove` deletes the cell.  On a `Map`- or `Text`-owned slot the
source empties the slot but the owner keeps its cell, breaking the
invariant. -/
def PreRemoveAt (s : FieldSt) (x y : Int) : Prop :=
  0 ≤ x ∧ x < (s.width : Int) ∧ 0 ≤ y ∧ y < (s.height : Int) ∧
  ∀ oid, slotAt s x.toNat y.toNat = some oid →
    (getObj s oid).isMap = false ∧ (getObj s oid).isTetrimino = true

/-- The operations the claim quantifies over. -/
inductive FOp
  | update (oid : Nat)
  | clear (oid : Nat)
  | removeAt (x y : Int)
deriving DecidableEq, Repr

def applyOp (s : FieldSt) : FOp → Option FieldSt
  | .update oid => Field.update s oid
  | .clear oid => Field.clear s oid
  | .removeAt x y => Field.remove_at s x y

def Pre (s : FieldSt) : FOp → Prop
  | .update oid => PreObjOp s oid
  | .clear oid => PreObjOp s oid
  | .removeAt x y => PreRemoveAt s x y

/-- Each call of the sequence satisfies its precondition in the state it
runs in. -/
def PreSeq : FieldSt → List FOp → Prop
  | _, [] => True
  | s, op :: ops => Pre s op ∧ ∀ s', applyOp s op = some s' → PreSeq s' ops

def runOps : FieldSt → List FOp → Option FieldSt
  | s, [] => some s
  | s, op :: ops => (applyOp s op).bind fun s' => runOps s' ops

/-! ### Write lemmas for the grid -/

/-- Structural well-formedness of a raw grid: `H` rows of length `W`. -/
def WFD (W H : Nat) (d : List (List (Option Nat))) : Prop :=
  d.length = H ∧ ∀ row ∈ d, row.length = W

theorem dataSet_spec {W H : Nat} {d : List (List (Option Nat))} {x y : Int}
    (v : Option Nat) (hwf : WFD W H d)
    (hx0 : 0 ≤ x) (hx : x < (W : Int)) (hy0 : 0 ≤ y) (hy : y < (H : Int)) :
    ∃ d', dataSet d x y v = some d' ∧ WFD W H d' ∧
      ∀ a b : Nat, slotAtD d' a b =
        if a = x.toNat ∧ b = y.toNat then v else slotAtD d a b := by
  obtain ⟨hlen, hrows⟩ := hwf
  have hyN : y.toNat < d.length := by omega
  have hres : pyResolve d.length y = some y.toNat :=
    pyResolve_of_inbounds hy0 (by omega)
  cases hrow : d.get? y.toNat with
  | none => exfalso; have := List.get?_eq_none.mp hrow; omega
  | some row =>
    have hrl : row.length = W := hrows row (List.get?_mem hrow)
    have hxN : x.toNat < row.length := by omega
    have hresx : pyResolve row.length x = some x.toNat :=
      pyResolve_of_inbounds hx0 (by omega)
    have hrow' : d[y.toNat]? = some row := by
      rw [← List.get?_eq_getElem?]
      exact hrow
    refine ⟨d.set y.toNat (row.set x.toNat v), ?_, ⟨?_, ?_⟩, ?_⟩
    · unfold dataSet
      simp [hres, hrow', hresx]
    · simp [hlen]
    · intro r hr
      rcases List.mem_or_eq_of_mem_set hr with hr | rfl
      · exact hrows r hr
      · simp [hrl]
    · intro a b
      by_cases hb : b = y.toNat
      · subst hb
        unfold slotAtD
        rw [List.get?_set_eq_of_lt _ hyN]
        simp only [Option.some_bind]
        by_cases ha : a = x.toNat
        · subst ha
          rw [List.get?_set_eq_of_lt _ hxN]
          simp [hrow]
        · rw [List.get?_set_ne _ _ (fun h => ha h.symm)]
          simp [slotAtD, ha, hrow']
      · unfold slotAtD
        rw [List.get?_set_ne _ _ (fun h => hb h.symm)]
        rw [if_neg (fun h : a = x.toNat ∧ b = y.toNat => hb h.2)]

theorem foldWrite_spec (v : Option Nat) {W H : Nat} :
    ∀ (cs : List Coord) (d : List (List (Option Nat))),
      WFD W H d →
      (∀ c ∈ cs, 0 ≤ c.1 ∧ c.1 < (W : Int) ∧ 0 ≤ c.2 ∧ c.2 < (H : Int)) →
      ∃ d', cs.foldlM (fun d c => dataSet d c.1 c.2 v) d = some d' ∧ WFD W H d' ∧
        ∀ a b : Nat, slotAtD d' a b =
          if ((a : Int), (b : Int)) ∈ cs then v else slotAtD d a b := by
  intro cs
  induction cs with
  | nil =>
    intro d hwf _
    exact ⟨d, rfl, hwf, by simp⟩
  | cons c rest ih =>
    intro d hwf hin
    have hc := hin c (List.mem_cons_self _ _)
    obtain ⟨d1, hd1, hwf1, hslot1⟩ :=
      dataSet_spec v hwf hc.1 hc.2.1 hc.2.2.1 hc.2.2.2
    obtain ⟨d', hd', hwf', hslot'⟩ :=
      ih d1 hwf1 (fun c' hc' => hin c' (List.mem_cons_of_mem _ hc'))
    refine ⟨d', ?_, hwf', ?_⟩
    · rw [List.foldlM_cons, hd1]
      simpa using hd'
    · intro a b
      have hcoord : (a = c.1.toNat ∧ b = c.2.toNat) ↔ ((a : Int), (b : Int)) = c := by
        rcases c with ⟨cx, cy⟩
        obtain ⟨hcx0, _, hcy0, _⟩ := hc
        simp only [Prod.ext_iff]
        omega
      rw [hslot', hslot1]
      simp only [List.mem_cons]
      by_cases h1 : ((a : Int), (b : Int)) ∈ rest <;>
        by_cases h2 : ((a : Int), (b : Int)) = c <;>
          simp [h1, h2, hcoord]

/-! ### Step lemmas: each operation preserves consistency under its
precondition -/

theorem slotAt_mk {w h mW : Nat} {d : List (List (Option Nat))} {os : List Obj}
    {a b : Nat} : slotAt ⟨w, h, mW, d, os⟩ a b = slotAtD d a b := rfl

theorem WFF_iff_WFD {s : FieldSt} : WFF s ↔ WFD s.width s.height s.data :=
  Iff.rfl

theorem clear_step {s s' : FieldSt} {oid : Nat}
    (hc : Consistent s) (hp : PreObjOp s oid)
    (h : Field.clear s oid = some s') : Consistent s' := by
  obtain ⟨hwf, hcc, hok⟩ := hc
  obtain ⟨hpre, _⟩ := hp
  obtain ⟨d', hf, hwfd', hsl⟩ :=
    foldWrite_spec none (getObj s oid).cells s.data (WFF_iff_WFD.mp hwf)
      (fun c hc' => (hpre c hc').1)
  unfold Field.clear at h
  rw [hf] at h
  simp only [Option.map_some'] at h
  have h' := Option.some_inj.mp h
  subst h'
  have hobjs : ∀ k, getObj { s with data := d' } k = getObj s k := fun _ => rfl
  have hS : ∀ a b : Nat, slotAt { s with data := d' } a b =
      if ((a : Int), (b : Int)) ∈ (getObj s oid).cells then none
      else slotAt s a b := fun a b => hsl a b
  have hnotrk : ¬ tracked { s with data := d' } oid := by
    rintro ⟨a, b, hab⟩
    rw [hS] at hab
    by_cases hm : ((a : Int), (b : Int)) ∈ (getObj s oid).cells
    · rw [if_pos hm] at hab; cases hab
    · rw [if_neg hm] at hab
      exact hm (hcc.1 a b oid hab)
  have htrk_back : ∀ o, tracked { s with data := d' } o → tracked s o := by
    rintro o ⟨a, b, hab⟩
    rw [hS] at hab
    by_cases hm : ((a : Int), (b : Int)) ∈ (getObj s oid).cells
    · rw [if_pos hm] at hab; cases hab
    · rw [if_neg hm] at hab
      exact ⟨a, b, hab⟩
  refine ⟨hwfd', ⟨?_, ?_⟩, ?_⟩
  · intro a b o hab
    rw [hS] at hab
    by_cases hm : ((a : Int), (b : Int)) ∈ (getObj s oid).cells
    · rw [if_pos hm] at hab; cases hab
    · rw [if_neg hm] at hab
      exact hcc.1 a b o hab
  · intro o htr c hcm
    have htrs : tracked s o := htrk_back o htr
    rw [hobjs] at hcm
    have hold : slotAtI s c.1 c.2 = some o := hcc.2 o htrs c hcm
    have hInB : InB s c := (hok o htrs).1 c hcm
    obtain ⟨hc1, _, hc2, _⟩ := hInB
    have hnm : c ∉ (getObj s oid).cells := by
      intro hm
      have := hpre c hm
      rw [hold] at this
      rcases this.2 with h' | h'
      · cases h'
      · have : o = oid := by injection h'
        subst this
        exact hnotrk htr
    unfold slotAtI at hold ⊢
    rw [if_pos ⟨hc1, hc2⟩] at hold ⊢
    rw [hS]
    rw [if_neg (by
      rw [Int.toNat_of_nonneg hc1, Int.toNat_of_nonneg hc2]
      simpa using hnm)]
    exact hold
  · intro o htr
    have htrs : tracked s o := htrk_back o htr
    exact hok o htrs

theorem update_step {s s' : FieldSt} {oid : Nat}
    (hc : Consistent s) (hp : PreObjOp s oid)
    (h : Field.update s oid = some s') : Consistent s' := by
  obtain ⟨hwf, hcc, hok⟩ := hc
  obtain ⟨hpre, hnd⟩ := hp
  obtain ⟨d1, hf1, hwfd1, hsl1⟩ :=
    foldWrite_spec none (getObj s oid).cells s.data (WFF_iff_WFD.mp hwf)
      (fun c hc' => (hpre c hc').1)
  obtain ⟨d2, hf2, hwfd2, hsl2⟩ :=
    foldWrite_spec (some oid) (getObj s oid).cells d1 hwfd1
      (fun c hc' => (hpre c hc').1)
  have hclear : Field.clear s oid = some { s with data := d1 } := by
    unfold Field.clear
    rw [hf1]
    rfl
  unfold Field.update at h
  rw [hclear] at h
  simp only [Option.some_bind] at h
  rw [hf2] at h
  simp only [Option.map_some'] at h
  have h' := Option.some_inj.mp h
  subst h'
  set t : FieldSt := { s with data := d2 } with ht
  have hobjs : ∀ k, getObj t k = getObj s k := fun _ => rfl
  have hS : ∀ a b : Nat, slotAt t a b =
      if ((a : Int), (b : Int)) ∈ (getObj s oid).cells then some oid
      else slotAt s a b := by
    intro a b
    have e2 : slotAt t a b = slotAtD d2 a b := rfl
    rw [e2, hsl2 a b]
    by_cases hm : ((a : Int), (b : Int)) ∈ (getObj s oid).cells
    · rw [if_pos hm, if_pos hm]
    · rw [if_neg hm, if_neg hm, hsl1 a b, if_neg hm]
      rfl
  have htrk_back : ∀ o, o ≠ oid → tracked t o → tracked s o := by
    rintro o hne ⟨a, b, hab⟩
    rw [hS] at hab
    by_cases hm : ((a : Int), (b : Int)) ∈ (getObj s oid).cells
    · rw [if_pos hm] at hab
      exact absurd (Option.some_inj.mp hab).symm hne
    · rw [if_neg hm] at hab
      exact ⟨a, b, hab⟩
  refine ⟨hwfd2, ⟨?_, ?_⟩, ?_⟩
  · intro a b o hab
    rw [hS] at hab
    by_cases hm : ((a : Int), (b : Int)) ∈ (getObj s oid).cells
    · rw [if_pos hm] at hab
      have : oid = o := Option.some_inj.mp hab
      subst this
      exact hm
    · rw [if_neg hm] at hab
      exact hcc.1 a b o hab
  · intro o htr c hcm
    rw [hobjs] at hcm
    by_cases ho : o = oid
    · subst ho
      have hInB : InB s c := (hpre c hcm).1
      obtain ⟨hc1, _, hc2, _⟩ := hInB
      unfold slotAtI
      rw [if_pos ⟨hc1, hc2⟩, hS]
      rw [if_pos (by
        rw [Int.toNat_of_nonneg hc1, Int.toNat_of_nonneg hc2]
        simpa using hcm)]
    · have htrs : tracked s o := htrk_back o ho htr
      have hold : slotAtI s c.1 c.2 = some o := hcc.2 o htrs c hcm
      have hInB : InB s c := (hok o htrs).1 c hcm
      obtain ⟨hc1, _, hc2, _⟩ := hInB
      have hnm : c ∉ (getObj s oid).cells := by
        intro hm
        have := (hpre c hm).2
        rw [hold] at this
        rcases this with h' | h'
        · cases h'
        · exact ho (Option.some_inj.mp h')
      unfold slotAtI at hold ⊢
      rw [if_pos ⟨hc1, hc2⟩] at hold ⊢
      rw [hS]
      rw [if_neg (by
        rw [Int.toNat_of_nonneg hc1, Int.toNat_of_nonneg hc2]
        simpa using hnm)]
      exact hold
  · intro o htr
    by_cases ho : o = oid
    · subst ho
      rw [hobjs]
      exact ⟨fun c hcm => (hpre c hcm).1, hnd⟩
    · exact hok o (htrk_back o ho htr)

theorem pyDelMatches_of_no_match {p : α → Bool} :
    ∀ l : List α, (∀ a ∈ l, p a = false) → pyDelMatches p l = l := by
  intro l
  induction l with
  | nil => intro; rfl
  | cons c rest ih =>
    intro h
    unfold pyDelMatches
    rw [h c (List.mem_cons_self _ _)]
    simp [ih fun a ha => h a (List.mem_cons_of_mem _ ha)]

theorem pyDelMatches_unique [BEq α] [LawfulBEq α] {p : α → Bool} {v : α} :
    ∀ l : List α, l.Nodup → (∀ a ∈ l, (p a = true ↔ a = v)) →
      pyDelMatches p l = l.erase v := by
  intro l
  induction l with
  | nil => intro _ _; rfl
  | cons c rest ih =>
    intro hnd hprop
    have hndr : rest.Nodup := hnd.of_cons
    have hcr : c ∉ rest := (List.nodup_cons.mp hnd).1
    by_cases hpc : p c = true
    · have hcv : c = v := (hprop c (List.mem_cons_self _ _)).mp hpc
      subst hcv
      unfold pyDelMatches
      rw [hpc]
      simp only [if_true]
      rw [List.erase_cons_head]
      cases rest with
      | nil => rfl
      | cons d rest2 =>
        have hid : pyDelMatches p rest2 = rest2 := by
          apply pyDelMatches_of_no_match
          intro a ha
          have hav : a ≠ c := by
            intro h'
            subst h'
            exact hcr (List.mem_cons_of_mem _ ha)
          by_contra h'
          exact hav ((hprop a (List.mem_cons_of_mem _ (List.mem_cons_of_mem _ ha))).mp
            (Bool.of_not_eq_false h'))
        show d :: pyDelMatches p rest2 = d :: rest2
        rw [hid]
    · have hcv : c ≠ v := fun h' => hpc ((hprop c (List.mem_cons_self _ _)).mpr h')
      unfold pyDelMatches
      rw [Bool.not_eq_true] at hpc
      rw [hpc]
      simp only [Bool.false_eq_true, if_false]
      rw [ih hndr fun a ha => hprop a (List.mem_cons_of_mem _ ha),
        List.erase_cons_tail (by simp [hcv])]

/-- On an in-bounds coordinate, `Field.get` reads the slot. -/
theorem get_eq_slotAt {s : FieldSt} {x y : Int} (hwf : WFF s)
    (hx0 : 0 ≤ x) (hx : x < (s.width : Int))
    (hy0 : 0 ≤ y) (hy : y < (s.height : Int)) :
    Field.get s x y = slotAt s x.toNat y.toNat := by
  obtain ⟨hlen, hrows⟩ := hwf
  unfold Field.get slotAt
  have hy' : pyGetL s.data y = s.data.get? y.toNat :=
    pyGetL_of_inbounds hy0 (by omega)
  rw [hy']
  cases hrow : s.data.get? y.toNat with
  | none => simp
  | some row =>
    have hrl : row.length = s.width := hrows row (List.get?_mem hrow)
    have hx' : pyGetL row x = row.get? x.toNat :=
      pyGetL_of_inbounds hx0 (by omega)
    simp [hx']

theorem getD_set_eq {l : List α} {n : Nat} {v d : α} (h : n < l.length) :
    (l.set n v).getD n d = v := by
  unfold List.getD
  rw [List.get?_set_eq_of_lt _ h]
  rfl

theorem getD_set_ne {l : List α} {m n : Nat} {v d : α} (h : m ≠ n) :
    (l.set m v).getD n d = l.getD n d := by
  unfold List.getD
  rw [List.get?_set_ne _ _ h]

theorem removeAt_step {s s' : FieldSt} {x y : Int}
    (hc : Consistent s) (hp : PreRemoveAt s x y)
    (h : Field.remove_at s x y = some s') : Consistent s' := by
  obtain ⟨hwf, hcc, hok⟩ := hc
  obtain ⟨hx0, hx, hy0, hy, hmap⟩ := hp
  have hget : Field.get s x y = slotAt s x.toNat y.toNat :=
    get_eq_slotAt hwf hx0 hx hy0 hy
  unfold Field.remove_at at h
  rw [hget] at h
  cases hslot : slotAt s x.toNat y.toNat with
  | none =>
    rw [hslot] at h
    have h' := Option.some_inj.mp h
    subst h'
    exact ⟨hwf, hcc, hok⟩
  | some oid =>
    rw [hslot] at h
    obtain ⟨d', hd', hwfd', hsl⟩ :=
      dataSet_spec (d := s.data) none (WFF_iff_WFD.mp hwf) hx0 hx hy0 hy
    rw [hd'] at h
    simp only [Option.map_some'] at h
    have hMap : (getObj s oid).isMap = false := (hmap oid hslot).1
    have hTet : (getObj s oid).isTetrimino = true := (hmap oid hslot).2
    rw [if_neg (by rw [hMap]; exact Bool.false_ne_true)] at h
    rw [if_pos hTet] at h
    have h' := Option.some_inj.mp h
    subst h'
    -- facts about the pre-state
    have htr : tracked s oid := ⟨_, _, hslot⟩
    have hmem' : ((x.toNat : Int), (y.toNat : Int)) ∈ (getObj s oid).cells :=
      hcc.1 _ _ _ hslot
    have hmemxy : (x, y) ∈ (getObj s oid).cells := by
      rwa [Int.toNat_of_nonneg hx0, Int.toNat_of_nonneg hy0] at hmem'
    have hnd : (getObj s oid).cells.Nodup := (hok oid htr).2
    have hInBs : ∀ c ∈ (getObj s oid).cells, InB s c := (hok oid htr).1
    have holt : oid < s.objs.length := by
      by_contra hge
      have : getObj s oid = ⟨[], false, false⟩ := by
        unfold getObj
        exact List.getD_eq_default _ _ (by omega)
      rw [this] at hmemxy
      cases hmemxy
    have hdel : pyDelMatches (fun c => c.1 == x && c.2 == y) (getObj s oid).cells
        = (getObj s oid).cells.erase (x, y) := by
      apply pyDelMatches_unique _ hnd
      intro a _
      rcases a with ⟨ax, ay⟩
      simp [Prod.ext_iff]
    set o' : Obj :=
      { getObj s oid with
        cells := pyDelMatches (fun c => c.1 == x && c.2 == y) (getObj s oid).cells }
      with ho'
    set t : FieldSt := { s with data := d', objs := s.objs.set oid o' } with ht
    have hobjs_eq : ∀ k, k ≠ oid → getObj t k = getObj s k := by
      intro k hk
      show (s.objs.set oid o').getD k ⟨[], false, false⟩ = s.objs.getD k ⟨[], false, false⟩
      exact getD_set_ne (fun h'' => hk h''.symm)
    have hobjs_oid : getObj t oid = o' := by
      show (s.objs.set oid o').getD oid ⟨[], false, false⟩ = o'
      exact getD_set_eq holt
    have hcells_oid : (getObj t oid).cells = (getObj s oid).cells.erase (x, y) := by
      rw [hobjs_oid, ho', hdel]
    have hS : ∀ a b : Nat, slotAt t a b =
        if a = x.toNat ∧ b = y.toNat then none else slotAt s a b := fun a b =>
      hsl a b
    have htrk_back : ∀ o, tracked t o → tracked s o := by
      rintro o ⟨a, b, hab⟩
      rw [hS] at hab
      by_cases hm : a = x.toNat ∧ b = y.toNat
      · rw [if_pos hm] at hab; cases hab
      · rw [if_neg hm] at hab
        exact ⟨a, b, hab⟩
    refine ⟨hwfd', ⟨?_, ?_⟩, ?_⟩
    · intro a b o hab
      rw [hS] at hab
      by_cases hm : a = x.toNat ∧ b = y.toNat
      · rw [if_pos hm] at hab; cases hab
      · rw [if_neg hm] at hab
        have hmemo : ((a : Int), (b : Int)) ∈ (getObj s o).cells := hcc.1 a b o hab
        by_cases ho : o = oid
        · subst ho
          rw [hcells_oid]
          rw [List.Nodup.mem_erase_iff hnd]
          refine ⟨?_, hmemo⟩
          intro heq
          apply hm
          have h1 : (a : Int) = x := congrArg Prod.fst heq
          have h2 : (b : Int) = y := congrArg Prod.snd heq
          omega
        · rw [hobjs_eq o ho]
          exact hmemo
    · intro o htrt c hcm
      have htrs : tracked s o := htrk_back o htrt
      by_cases ho : o = oid
      · subst ho
        rw [hcells_oid] at hcm
        obtain ⟨hcne, hcm'⟩ := List.Nodup.mem_erase_iff hnd |>.mp hcm
        have hold := hcc.2 _ htrs c hcm'
        obtain ⟨hc1, _, hc2, _⟩ := hInBs c hcm'
        unfold slotAtI at hold ⊢
        rw [if_pos ⟨hc1, hc2⟩] at hold ⊢
        rw [hS]
        rw [if_neg (by
          rintro ⟨h1, h2⟩
          apply hcne
          have e1 : c.1 = x := by omega
          have e2 : c.2 = y := by omega
          exact Prod.ext e1 e2)]
        exact hold
      · rw [hobjs_eq o ho] at hcm
        have hold : slotAtI s c.1 c.2 = some o := hcc.2 o htrs c hcm
        obtain ⟨hc1, _, hc2, _⟩ := (hok o htrs).1 c hcm
        unfold slotAtI at hold ⊢
        rw [if_pos ⟨hc1, hc2⟩] at hold ⊢
        rw [hS]
        rw [if_neg (by
          rintro ⟨h1, h2⟩
          have e1 : c.1.toNat = x.toNat := h1
          have e2 : c.2.toNat = y.toNat := h2
          have : slotAt s c.1.toNat c.2.toNat = some oid := by
            rw [e1, e2]; exact hslot
          rw [hold] at this
          have heq := Option.some_inj.mp this
          exact ho (by omega))]
        exact hold
    · intro o htrt
      have htrs : tracked s o := htrk_back o htrt
      by_cases ho : o = oid
      · subst ho
        rw [hcells_oid]
        constructor
        · intro c hcm
          exact hInBs c (List.mem_of_mem_erase hcm)
        · exact hnd.erase _
      · rw [hobjs_eq o ho]
        exact hok o htrs

/-! ## Claim C1: Field consistency across call sequences -/

/-- C1 counterexample states: two non-wall objects with overlapping cell
lists on a 2×1 grid. -/
def C1cexS0 : FieldSt :=
  { width := 2, height := 1, mapWidth := 2
    data := [[none, none]]
    objs := [⟨[(0, 0), (1, 0)], false, true⟩, ⟨[(0, 0)], false, true⟩] }

def C1cexS1 : FieldSt :=
  { width := 2, height := 1, mapWidth := 2
    data := [[some 1, some 0]]
    objs := [⟨[(0, 0), (1, 0)], false, true⟩, ⟨[(0, 0)], false, true⟩] }

/-- C1 (counterexample): the call sequence `update(A); update(B)` with
overlapping cell lists leaves object `A` tracked (it still owns slot
`(1, 0)`) while `A`'s cell `(0, 0)` is recorded under owner `B` — the
claimed invariant does not hold for arbitrary call sequences. -/
theorem C1_cex :
    runOps C1cexS0 [FOp.update 0, FOp.update 1] = some C1cexS1 ∧
      ¬ ClaimConsistent C1cexS1 := by
  constructor
  · rfl
  · intro h
    have htr : tracked C1cexS1 0 := ⟨1, 0, by decide⟩
    have h2 := h.2 0 htr (0, 0) (by decide)
    exact absurd h2 (by decide)

/-- C1 (amended): starting from a consistent Field, any sequence of
`update`/`clear`/`remove_at` calls in which each `update(obj)`/
`clear(obj)` finds `obj`'s cells in bounds, with pairwise-distinct
coordinates, and on slots that are empty or already owned by `obj`, and
each `remove_at(x, y)` targets an in-bounds coordinate whose slot is
empty or owned by a non-`Map` `Tetrimino` (the only owner class whose
`remove` deletes the cell — a `Map` or `Text` owner keeps its cell while
the slot is emptied), preserves the invariant: every non-empty slot's
coordinate is a coordinate of a cell of exactly the recorded object, and
every tracked object's cells sit in slots recorded under that object. -/
theorem C1_consistency_preserved :
    ∀ (ops : List FOp) (s s' : FieldSt),
      Consistent s → PreSeq s ops → runOps s ops = some s' → Consistent s' := by
  intro ops
  induction ops with
  | nil =>
    intro s s' hc _ h
    unfold runOps at h
    exact (Option.some_inj.mp h) ▸ hc
  | cons op rest ih =>
    intro s s' hc hp hrun
    unfold runOps at hrun
    cases happ : applyOp s op with
    | none => rw [happ] at hrun; cases hrun
    | some s1 =>
      rw [happ] at hrun
      simp only [Option.some_bind] at hrun
      have hc1 : Consistent s1 := by
        cases op with
        | update oid => exact update_step hc hp.1 happ
        | clear oid => exact clear_step hc hp.1 happ
        | removeAt x y => exact removeAt_step hc hp.1 happ
      exact ih s1 s' hc1 (hp.2 s1 happ) hrun

/-- C1 witness states: one object registered on an empty 1×1 field. -/
def C1wS0 : FieldSt :=
  { width := 1, height := 1, mapWidth := 1
    data := [[none]]
    objs := [⟨[(0, 0)], false, true⟩] }

def C1wS1 : FieldSt :=
  { width := 1, height := 1, mapWidth := 1
    data := [[some 0]]
    objs := [⟨[(0, 0)], false, true⟩] }

theorem C1wS0_slots_empty : ∀ x y : Nat, slotAt C1wS0 x y = none := by
  intro x y
  cases y with
  | zero => cases x with
    | zero => rfl
    | succ n => rfl
  | succ m => rfl

theorem C1wS0_consistent : Consistent C1wS0 := by
  refine ⟨⟨rfl, ?_⟩, ⟨?_, ?_⟩, ?_⟩
  · intro row hrow
    rw [List.mem_singleton.mp hrow]
    rfl
  · intro x y oid h
    rw [C1wS0_slots_empty] at h
    cases h
  · rintro oid ⟨x, y, h⟩
    rw [C1wS0_slots_empty] at h
    cases h
  · rintro oid ⟨x, y, h⟩
    rw [C1wS0_slots_empty] at h
    cases h

theorem C1wS0_preseq : PreSeq C1wS0 [FOp.update 0] := by
  refine ⟨⟨?_, by decide⟩, fun s' _ => trivial⟩
  intro c hcm
  rw [List.mem_singleton.mp hcm]
  exact ⟨⟨by decide, by decide, by decide, by decide⟩, Or.inl rfl⟩

/-- C1 witness: running `update` on the concrete 1×1 field yields a
state whose slot `(0, 0)` records the object that owns cell `(0, 0)`,
via the invariant theorem applied to the one-call sequence. -/
theorem C1_consistency_witness : slotAtI C1wS1 0 0 = some 0 :=
  (C1_consistency_preserved [FOp.update 0] C1wS0 C1wS1
      C1wS0_consistent C1wS0_preseq rfl).2.1.2 0 ⟨0, 0, rfl⟩ (0, 0) (by decide)

/-! ## Claim C9: `clear` empties exactly the object's slots -/

/-- C9 counterexample states: object 0's cell list covers `(1, 0)`,
whose slot is owned by object 1. -/
def C9cexS0 : FieldSt :=
  { width := 2, height := 1, mapWidth := 2
    data := [[some 0, some 1]]
    objs := [⟨[(0, 0), (1, 0)], false, true⟩, ⟨[(1, 0)], false, true⟩] }

def C9cexS1 : FieldSt :=
  { width := 2, height := 1, mapWidth := 2
    data := [[none, none]]
    objs := [⟨[(0, 0), (1, 0)], false, true⟩, ⟨[(1, 0)], false, true⟩] }

/-- C9 (counterexample): object 0 is tracked (it owns slot `(0, 0)`),
yet `clear(0)` also empties slot `(1, 0)`, which is owned by object 1 —
clearing one object can modify another object's slots. -/
theorem C9_cex :
    Field.clear C9cexS0 0 = some C9cexS1 ∧
      slotAt C9cexS0 0 0 = some 0 ∧
      slotAt C9cexS0 1 0 = some 1 ∧ slotAt C9cexS1 1 0 = none := by
  exact ⟨rfl, rfl, rfl, rfl⟩

/-- C9 (amended): provided every coordinate in `obj`'s current cell list
is in bounds and holds a slot that is empty or owned by `obj` itself,
`Field.clear(obj)` empties all of `obj`'s slots and leaves every slot
owned by any other object unchanged.  (In general `clear` empties the
slots at all of `obj`'s cell coordinates regardless of the recorded
owner — see the counterexample.) -/
theorem C9_clear_frame (s s' : FieldSt) (oid : Nat)
    (hwf : WFF s)
    (hpre : ∀ c ∈ (getObj s oid).cells,
      InB s c ∧ (slotAtI s c.1 c.2 = none ∨ slotAtI s c.1 c.2 = some oid))
    (h : Field.clear s oid = some s') :
    (∀ c ∈ (getObj s oid).cells, slotAtI s' c.1 c.2 = none) ∧
    (∀ a b o : Nat, o ≠ oid → slotAt s a b = some o → slotAt s' a b = some o) := by
  obtain ⟨d', hf, hwfd', hsl⟩ :=
    foldWrite_spec none (getObj s oid).cells s.data (WFF_iff_WFD.mp hwf)
      (fun c hc' => (hpre c hc').1)
  unfold Field.clear at h
  rw [hf] at h
  simp only [Option.map_some'] at h
  have h' := Option.some_inj.mp h
  subst h'
  constructor
  · intro c hcm
    obtain ⟨⟨hc1, _, hc2, _⟩, _⟩ := hpre c hcm
    unfold slotAtI
    rw [if_pos ⟨hc1, hc2⟩]
    show slotAtD d' c.1.toNat c.2.toNat = none
    rw [hsl]
    rw [if_pos (by
      rw [Int.toNat_of_nonneg hc1, Int.toNat_of_nonneg hc2]
      simpa using hcm)]
  · intro a b o hne hab
    show slotAtD d' a b = some o
    rw [hsl]
    rw [if_neg (fun hm => ?_)]
    · exact hab
    · obtain ⟨_, hown⟩ := hpre ((a : Int), (b : Int)) hm
      have : slotAtI s (a : Int) (b : Int) = some o := by
        unfold slotAtI
        rw [if_pos ⟨Int.natCast_nonneg a, Int.natCast_nonneg b⟩]
        simpa using hab
      rw [this] at hown
      rcases hown with h'' | h''
      · cases h''
      · exact hne (Option.some_inj.mp h'')

/-- C9 witness state: two objects on disjoint slots. -/
def C9wS0 : FieldSt :=
  { width := 2, height := 1, mapWidth := 2
    data := [[some 0, some 1]]
    objs := [⟨[(0, 0)], false, true⟩, ⟨[(1, 0)], false, true⟩] }

def C9wS1 : FieldSt :=
  { width := 2, height := 1, mapWidth := 2
    data := [[none, some 1]]
    objs := [⟨[(0, 0)], false, true⟩, ⟨[(1, 0)], false, true⟩] }

/-- C9 witness: clearing object 0 on the concrete field empties its slot
`(0, 0)` and keeps object 1's slot `(1, 0)`, via the frame theorem. -/
theorem C9_clear_frame_witness :
    slotAtI C9wS1 0 0 = none ∧ slotAt C9wS1 1 0 = some 1 := by
  have hframe := C9_clear_frame C9wS0 C9wS1 0 ⟨rfl, by decide⟩
    (by
      intro c hcm
      rw [List.mem_singleton.mp hcm]
      exact ⟨⟨by decide, by decide, by decide, by decide⟩, Or.inr rfl⟩)
    rfl
  exact ⟨hframe.1 (0, 0) (by decide), hframe.2 1 0 1 (by decide) rfl⟩

end Tetris
